import Mathlib

/-!
Verification of the Workflow Data-Flow Resolution Engine
(`WorkflowExecutionContext.tsx` and the template-variable input parser).

The JavaScript values handled by the engine are JSON-like trees; we embed
them as the inductive type `Json` below.  JavaScript records
(`Record<string, unknown>`) are embedded as insertion-ordered association
lists, matching the enumeration-order semantics of JS object keys that the
code relies on (`Object.values`, spread merges, key assignment).  Numbers
are embedded as exact rationals (plus the two infinities produced by
`parseFloat`); no claim below depends on float rounding.
-/

namespace GenAssist

/-- A JavaScript number as observed by the engine: an exact rational value
or one of the two infinities (`parseFloat` can produce `Infinity`). -/
inductive JsNum where
  | val (q : ℚ)
  | inf (neg : Bool)
deriving DecidableEq

/-- JSON-like JavaScript values: `null`, `undefined`, booleans, numbers,
strings, arrays and objects (insertion-ordered field lists). -/
inductive Json where
  | null
  | undef
  | bool (b : Bool)
  | num (n : JsNum)
  | str (s : String)
  | arr (items : List Json)
  | obj (fields : List (String × Json))

mutual
/-- Structural equality test for `Json` (deriving cannot handle the nested
recursion through `List`, so the instance is built by hand). -/
def beqJson : Json → Json → Bool
  | .null, .null => true
  | .undef, .undef => true
  | .bool a, .bool b => a == b
  | .num a, .num b => a == b
  | .str a, .str b => a == b
  | .arr xs, .arr ys => beqJsonList xs ys
  | .obj fs, .obj gs => beqJsonFields fs gs
  | _, _ => false

def beqJsonList : List Json → List Json → Bool
  | [], [] => true
  | x :: xs, y :: ys => beqJson x y && beqJsonList xs ys
  | _, _ => false

def beqJsonFields : List (String × Json) → List (String × Json) → Bool
  | [], [] => true
  | kv :: fs, lw :: gs => kv.1 == lw.1 && beqJson kv.2 lw.2 && beqJsonFields fs gs
  | _, _ => false
end

mutual
theorem beqJson_refl : ∀ a, beqJson a a = true
  | .null => rfl
  | .undef => rfl
  | .bool a => by simp [beqJson]
  | .num a => by simp [beqJson]
  | .str a => by simp [beqJson]
  | .arr xs => by simp [beqJson, beqJsonList_refl xs]
  | .obj fs => by simp [beqJson, beqJsonFields_refl fs]

theorem beqJsonList_refl : ∀ xs, beqJsonList xs xs = true
  | [] => rfl
  | x :: xs => by simp [beqJsonList, beqJson_refl x, beqJsonList_refl xs]

theorem beqJsonFields_refl : ∀ fs, beqJsonFields fs fs = true
  | [] => rfl
  | kv :: fs => by simp [beqJsonFields, beqJson_refl kv.2, beqJsonFields_refl fs]
end

theorem beqJsonList_sound
    (hel : ∀ x ∈ xs, ∀ y, beqJson x y = true → x = y) :
    ∀ ys, beqJsonList xs ys = true → xs = ys := by
  induction xs with
  | nil => intro ys h; cases ys with
    | nil => rfl
    | cons y ys => simp [beqJsonList] at h
  | cons x xs ih =>
    intro ys h
    cases ys with
    | nil => simp [beqJsonList] at h
    | cons y ys =>
      simp only [beqJsonList, Bool.and_eq_true] at h
      have hx := hel x (by simp) y h.1
      have hxs := ih (fun z hz w => hel z (by simp [hz]) w) ys h.2
      rw [hx, hxs]

theorem beqJsonFields_sound
    {fs : List (String × Json)}
    (hel : ∀ kv ∈ fs, ∀ w, beqJson kv.2 w = true → kv.2 = w) :
    ∀ gs, beqJsonFields fs gs = true → fs = gs := by
  induction fs with
  | nil => intro gs h; cases gs with
    | nil => rfl
    | cons g gs => simp [beqJsonFields] at h
  | cons kv fs ih =>
    intro gs h
    cases gs with
    | nil => simp [beqJsonFields] at h
    | cons lw gs =>
      simp only [beqJsonFields, Bool.and_eq_true, beq_iff_eq] at h
      obtain ⟨⟨hk, hv0⟩, hrest⟩ := h
      have hv := hel kv (by simp) lw.2 hv0
      have hfs := ih (fun z hz w => hel z (by simp [hz]) w) gs hrest
      have hkv : kv = lw := by
        cases kv; cases lw
        simp only [Prod.mk.injEq]
        exact ⟨hk, hv⟩
      rw [hkv, hfs]

theorem beqJson_sound_size :
    ∀ (n : ℕ) (a b : Json), sizeOf a ≤ n → beqJson a b = true → a = b := by
  intro n
  induction n with
  | zero =>
    intro a b h
    cases a <;> simp at h
  | succ n ih =>
    intro a b hsize hbeq
    cases a <;> cases b <;> simp only [beqJson] at hbeq <;>
      (try (simp only [beq_iff_eq] at hbeq; rw [hbeq])) <;>
      (try rfl) <;> (try simp at hbeq)
    · -- arrays
      rename_i xs ys
      have hxy : xs = ys := by
        refine beqJsonList_sound (fun x hx y hy => ?_) ys hbeq
        refine ih x y ?_ hy
        have h1 := List.sizeOf_lt_of_mem hx
        have h2 : sizeOf (Json.arr xs) = 1 + sizeOf xs := by simp
        omega
      rw [hxy]
    · -- objects
      rename_i fs gs
      have hfg : fs = gs := by
        refine beqJsonFields_sound (fun kv hkv w hw => ?_) gs hbeq
        refine ih kv.2 w ?_ hw
        have h1 := List.sizeOf_lt_of_mem hkv
        have h2 : sizeOf (Json.obj fs) = 1 + sizeOf fs := by simp
        have h3 : sizeOf kv.2 < sizeOf kv := by cases kv; simp
        omega
      rw [hfg]

instance : DecidableEq Json := fun a b =>
  if h : beqJson a b = true then
    isTrue (beqJson_sound_size (sizeOf a) a b (Nat.le_refl _) h)
  else
    isFalse (fun he => h (he ▸ beqJson_refl a))

abbrev JRecord := List (String × Json)

/-- Key lookup in a JS object (association list): first binding wins. -/
def lookupStr {α : Type} (k : String) : List (String × α) → Option α
  | [] => none
  | kv :: rest => if kv.1 = k then some kv.2 else lookupStr k rest

theorem lookupStr_nil {α : Type} (k : String) : lookupStr (α := α) k [] = none := rfl

theorem lookupStr_cons {α : Type} (k : String) (kv : String × α) (rest : List (String × α)) :
    lookupStr k (kv :: rest) = if kv.1 = k then some kv.2 else lookupStr k rest := rfl

/-- JS key assignment `m[k] = v`: an existing key keeps its position and is
overwritten in place; a new key is appended at the end. -/
def setKey {α : Type} (k : String) (v : α) (m : List (String × α)) : List (String × α) :=
  if (lookupStr k m).isSome then
    m.map (fun kv => if kv.1 = k then (k, v) else kv)
  else m ++ [(k, v)]

/-- JS `delete m[k]`. -/
def delKey {α : Type} (k : String) (m : List (String × α)) : List (String × α) :=
  m.filter (fun kv => kv.1 ≠ k)

/-- JS object spread `{...a, ...b}`: keys of `a` in order (values overridden
by `b` where present), then the keys of `b` that are new, in order. -/
def spread (a b : JRecord) : JRecord :=
  a.map (fun kv =>
    match lookupStr kv.1 b with
    | some v => (kv.1, v)
    | none => kv) ++
  b.filter (fun kv => (lookupStr kv.1 a).isNone)

/-- Is `needle` a prefix of `hay`? (helper for substring containment). -/
def leadsList (needle hay : List Char) : Bool :=
  match needle, hay with
  | [], _ => true
  | _ :: _, [] => false
  | a :: as, b :: bs => a == b && leadsList as bs

/-- Does `hay` contain `needle` as a contiguous substring? -/
def containsSub (needle : List Char) : List Char → Bool
  | [] => needle.isEmpty
  | c :: rest => leadsList needle (c :: rest) || containsSub needle rest

/-- JS `key.includes(marker)`: substring containment. -/
def includesStr (key marker : String) : Bool :=
  containsSub marker.toList key.toList

/-- Insert a `(key, signature)` pair into a key-sorted list
(the `Object.keys(value).sort()` step of `getSchemaSignature`). -/
def insertPairByKey (p : String × String) :
    List (String × String) → List (String × String)
  | [] => [p]
  | q :: qs => if p.1 < q.1 then p :: q :: qs else q :: insertPairByKey p qs

/-- Sort `(key, signature)` pairs by key, ascending (JS default string sort). -/
def sortPairsByKey : List (String × String) → List (String × String)
  | [] => []
  | p :: ps => insertPairByKey p (sortPairsByKey ps)

mutual
/-- `getSchemaSignature` (WorkflowExecutionContext.tsx:67-82): the JSON
schema signature of a value.  `null` → `"null"`, empty array →
`"array:empty"`, non-empty array → `"array:" ++` signature of the *first*
element, object → `"object:\x7b"` ++ sorted `key:signature` pairs joined by
`","` ++ `"\x7d"`, otherwise the `typeof` name. -/
def getSchemaSignature : Json → String
  | .null => "null"
  | .arr [] => "array:empty"
  | .arr (x :: _) => "array:" ++ getSchemaSignature x
  | .obj fields =>
      "object:\x7b" ++
        String.intercalate "," ((sortPairsByKey (sigFields fields)).map
          (fun kv => kv.1 ++ ":" ++ kv.2)) ++ "\x7d"
  | .undef => "undefined"
  | .bool _ => "boolean"
  | .num _ => "number"
  | .str _ => "string"

/-- Signatures of an object's fields, in field order (sorted afterwards). -/
def sigFields : List (String × Json) → List (String × String)
  | [] => []
  | kv :: rest => (kv.1, getSchemaSignature kv.2) :: sigFields rest
end

/-- `hasUniformSchema` (WorkflowExecutionContext.tsx:87-91): true when the
array has at most one element or every element's signature equals the
first element's signature. -/
def hasUniformSchema : List Json → Bool
  | [] => true
  | [_] => true
  | x :: xs =>
      (x :: xs).all (fun item => getSchemaSignature item == getSchemaSignature x)

mutual
/-- `optimizeOutputForStorage` (WorkflowExecutionContext.tsx:97-124):
truncates arrays longer than `arrayThreshold` whose elements share a
uniform schema down to a marker object holding the original length and one
compacted representative element; recurses element-wise / field-wise
otherwise; scalars pass through. -/
def optimizeOutputForStorage (value : Json) (arrayThreshold : ℕ := 2) : Json :=
  match value with
  | .null => .null
  | .undef => .undef
  | .arr items =>
      if decide (arrayThreshold < items.length) && hasUniformSchema items then
        match items with
        | [] => .arr []
        | x :: _ =>
            .obj [("__optimized", .bool true),
                  ("__originalLength", .num (.val items.length)),
                  ("items", .arr [optimizeOutputForStorage x arrayThreshold])]
      else
        .arr (optimizeList items arrayThreshold)
  | .obj fields => .obj (optimizeFields fields arrayThreshold)
  | v => v

/-- Element-wise compaction of an array's items (`value.map(...)`). -/
def optimizeList (items : List Json) (arrayThreshold : ℕ) : List Json :=
  match items with
  | [] => []
  | x :: rest => optimizeOutputForStorage x arrayThreshold :: optimizeList rest arrayThreshold

/-- Field-wise compaction of an object's entries (`Object.entries` loop). -/
def optimizeFields (fields : List (String × Json)) (arrayThreshold : ℕ) :
    List (String × Json) :=
  match fields with
  | [] => []
  | kv :: rest =>
      (kv.1, optimizeOutputForStorage kv.2 arrayThreshold) :: optimizeFields rest arrayThreshold
end

mutual
/-- Reference definition of `Compact` at threshold 2, written from the
spec's words: an array longer than the threshold in which every element's
signature equals the first element's signature is replaced by a marker
object with `optimized = true`, `originalLength` equal to the original
array length, and `items` containing exactly one element (the compacted
first element); other arrays are compacted element-wise without
truncation; objects field-wise; scalars pass through unchanged. -/
def compactSpec : Json → Json
  | .arr items =>
      match items with
      | x :: rest =>
          if 2 < (x :: rest).length ∧
              ∀ e ∈ x :: rest, getSchemaSignature e = getSchemaSignature x then
            .obj [("__optimized", .bool true),
                  ("__originalLength", .num (.val (x :: rest).length)),
                  ("items", .arr [compactSpec x])]
          else .arr (compactSpecList (x :: rest))
      | [] => .arr []
  | .obj fields => .obj (compactSpecFields fields)
  | v => v

/-- Element-wise reference compaction. -/
def compactSpecList : List Json → List Json
  | [] => []
  | x :: rest => compactSpec x :: compactSpecList rest

/-- Field-wise reference compaction. -/
def compactSpecFields : List (String × Json) → List (String × Json)
  | [] => []
  | kv :: rest => (kv.1, compactSpec kv.2) :: compactSpecFields rest
end

mutual
/-- The value a tree would have if its arrays were truncated to one
representative element (the spec's phrasing in the shape-preservation
law): a non-empty array keeps only its (recursively truncated) first
element; objects are truncated field-wise; scalars are unchanged. -/
def truncateOne : Json → Json
  | .arr [] => .arr []
  | .arr (x :: _) => .arr [truncateOne x]
  | .obj fields => .obj (truncateFields fields)
  | v => v

/-- Field-wise truncation. -/
def truncateFields : List (String × Json) → List (String × Json)
  | [] => []
  | kv :: rest => (kv.1, truncateOne kv.2) :: truncateFields rest
end

mutual
/-- No array anywhere in the tree is longer than the threshold 2 with a
uniform element schema, i.e. no subtree triggers compaction's truncation. -/
def noBigUniformArr : Json → Bool
  | .arr items =>
      !(decide (2 < items.length) && hasUniformSchema items) && noBigUniformList items
  | .obj fields => noBigUniformFields fields
  | _ => true

/-- `noBigUniformArr` for every array element. -/
def noBigUniformList : List Json → Bool
  | [] => true
  | x :: rest => noBigUniformArr x && noBigUniformList rest

/-- `noBigUniformArr` for every object field value. -/
def noBigUniformFields : List (String × Json) → Bool
  | [] => true
  | kv :: rest => noBigUniformArr kv.2 && noBigUniformFields rest
end

/-! ### Execution State Store (WorkflowExecutionContext.tsx:140-223) -/

/-- `NodeExecutionResult` (WorkflowExecutionContext.tsx:11-17).  The stored
output is a JS record (the code always stores the compacted record). -/
structure NodeExecutionResult where
  status : String
  output : JRecord
  timestamp : ℕ
  nodeType : String
  nodeName : String
deriving DecidableEq

/-- `WorkflowExecutionState` (WorkflowExecutionContext.tsx:19-32). -/
structure WorkflowExecutionState where
  session : JRecord
  source : JRecord
  nodeOutputs : List (String × NodeExecutionResult)
deriving DecidableEq

/-- The empty initial state (WorkflowExecutionContext.tsx:143-147). -/
def initialState : WorkflowExecutionState :=
  { session := [], source := [], nodeOutputs := [] }

/-- What `optimizeOutputForStorage` does to a record argument: each field's
value is compacted with the default threshold 2. -/
def optimizeRecord (out : JRecord) : JRecord := optimizeFields out 2

/-- `updateNodeOutput` (WorkflowExecutionContext.tsx:152-189): compacts the
output, stores it at `nodeId` (status "success", fresh timestamp), sets
`session` to the compacted output when the node is a chat-input node, and
sets `source` to exactly the compacted output. -/
def updateNodeOutput (nodeId : String) (output : JRecord)
    (nodeType nodeName : String) (now : ℕ)
    (prevState : WorkflowExecutionState) : WorkflowExecutionState :=
  let optimizedOutput := optimizeRecord output
  { nodeOutputs :=
      setKey nodeId
        { status := "success", output := optimizedOutput, timestamp := now,
          nodeType := nodeType, nodeName := nodeName }
        prevState.nodeOutputs,
    session := if nodeType = "chatInputNode" then optimizedOutput else prevState.session,
    source := optimizedOutput }

/-- `clearNodeOutput` (WorkflowExecutionContext.tsx:191-215): deletes the
entry and rebuilds `session` (chat-input outputs only) and `source` (all
remaining outputs) by spread-merging in iteration order. -/
def clearNodeOutput (nodeId : String)
    (prevState : WorkflowExecutionState) : WorkflowExecutionState :=
  let rest := delKey nodeId prevState.nodeOutputs
  { nodeOutputs := rest,
    session := rest.foldl (fun acc kv =>
      if kv.2.nodeType = "chatInputNode" then spread acc kv.2.output else acc) [],
    source := rest.foldl (fun acc kv => spread acc kv.2.output) [] }

/-- `clearAllOutputs` (WorkflowExecutionContext.tsx:217-223). -/
def clearAllOutputs (_prevState : WorkflowExecutionState) : WorkflowExecutionState :=
  { session := [], source := [], nodeOutputs := [] }

/-- Replaying `nodeOutputs`: the session aggregate is the spread-merge of
the chat-input nodes' recorded outputs, in iteration order. -/
def replaySession (outs : List (String × NodeExecutionResult)) : JRecord :=
  outs.foldl (fun acc kv =>
    if kv.2.nodeType = "chatInputNode" then spread acc kv.2.output else acc) []

/-- Replaying `nodeOutputs`: the source aggregate is the last-write-wins
per-key spread-merge of all recorded outputs, in iteration order. -/
def replaySource (outs : List (String × NodeExecutionResult)) : JRecord :=
  outs.foldl (fun acc kv => spread acc kv.2.output) []

/-- One public mutation of the Execution State Store. -/
inductive StoreOp where
  | record (nodeId : String) (output : JRecord) (nodeType nodeName : String) (now : ℕ)
  | clear (nodeId : String)
  | clearAll
deriving DecidableEq

/-- Apply one store operation. -/
def applyOp (st : WorkflowExecutionState) : StoreOp → WorkflowExecutionState
  | .record nodeId output nodeType nodeName now =>
      updateNodeOutput nodeId output nodeType nodeName now st
  | .clear nodeId => clearNodeOutput nodeId st
  | .clearAll => clearAllOutputs st

/-- Run a sequence of store operations from the empty initial state. -/
def runOps (ops : List StoreOp) : WorkflowExecutionState :=
  ops.foldl applyOp initialState

/-- The aggregate-derivability invariant stated by the spec: `session` and
`source` are exactly what replaying `nodeOutputs` yields. -/
def replayInvariant (st : WorkflowExecutionState) : Prop :=
  st.session = replaySession st.nodeOutputs ∧ st.source = replaySource st.nodeOutputs

instance (st : WorkflowExecutionState) : Decidable (replayInvariant st) := by
  unfold replayInvariant; infer_instance

/-! ### Claim C1: aggregate derivability of `session`/`source` -/

/-- C1 (counterexample): the replay-derivability invariant fails on a
reachable state.  After `RecordOutput("A", {x:1})` then
`RecordOutput("B", {y:2})` the store's `source` is exactly `{y:2}` (the
latest compacted output, globally), not the last-write-wins-per-key replay
aggregate `{x:1, y:2}` of `nodeOutputs`. -/
theorem C1_replay_invariant_fails_after_record :
    ¬ replayInvariant (runOps
      [.record "A" [("x", .num (.val 1))] "customNode" "A" 0,
       .record "B" [("y", .num (.val 2))] "customNode" "B" 1]) := by
  decide

/-- C1 (amended): `session` and `source` are fully derivable by replaying
`nodeOutputs` in the empty initial state and after every `ClearOutput` and
`ClearAll` (the removal path recomputes both aggregates from the remaining
set); `RecordOutput` instead sets `source` to exactly the newly compacted
output and, for a chat-input node, `session` likewise (leaving `session`
untouched otherwise), which in general differs from the replay
aggregates. -/
theorem C1_aggregates_replay_characterization
    (st : WorkflowExecutionState) (nodeId : String) (output : JRecord)
    (nodeType nodeName : String) (now : ℕ) :
    replayInvariant (clearNodeOutput nodeId st) ∧
    replayInvariant (clearAllOutputs st) ∧
    replayInvariant initialState ∧
    (updateNodeOutput nodeId output nodeType nodeName now st).source
      = optimizeRecord output ∧
    (nodeType = "chatInputNode" →
      (updateNodeOutput nodeId output nodeType nodeName now st).session
        = optimizeRecord output) ∧
    (nodeType ≠ "chatInputNode" →
      (updateNodeOutput nodeId output nodeType nodeName now st).session
        = st.session) := by
  refine ⟨⟨rfl, rfl⟩, ⟨rfl, rfl⟩, ⟨rfl, rfl⟩, rfl, ?_, ?_⟩
  · intro h
    simp [updateNodeOutput, h]
  · intro h
    simp [updateNodeOutput, h]

/-- Witness for C1 (amended) at a concrete state and inputs. -/
theorem C1_aggregates_replay_characterization_witness :
    replayInvariant (clearNodeOutput "A" (runOps
      [.record "A" [("x", .num (.val 1))] "customNode" "A" 0,
       .record "B" [("y", .num (.val 2))] "chatInputNode" "B" 1])) ∧
    ("chatInputNode" = "chatInputNode" →
      (updateNodeOutput "C" [("z", .num (.val 3))] "chatInputNode" "C" 2 (runOps
        [.record "A" [("x", .num (.val 1))] "customNode" "A" 0])).session
        = optimizeRecord [("z", .num (.val 3))]) := by
  have h := C1_aggregates_replay_characterization
    (runOps [.record "A" [("x", .num (.val 1))] "customNode" "A" 0,
             .record "B" [("y", .num (.val 2))] "chatInputNode" "B" 1])
    "A" [("z", .num (.val 3))] "chatInputNode" "C" 2
  have h2 := C1_aggregates_replay_characterization
    (runOps [.record "A" [("x", .num (.val 1))] "customNode" "A" 0])
    "C" [("z", .num (.val 3))] "chatInputNode" "C" 2
  exact ⟨h.1, h2.2.2.2.2.1⟩

/-! ### Claim C5: ClearOutput / re-RecordOutput round trip -/

/-- C5 (counterexample): with a second node's result present, clearing node
`A` and re-recording it with the same output, node type and name does not
reproduce the pre-clear `source`.  Pre-clear `source` is `{y:2}` (node `B`
wrote last); after the round trip it is `{x:1}` (RecordOutput sets `source`
to exactly the newly recorded output). -/
theorem C5_roundtrip_fails_with_two_nodes :
    lookupStr "A" (runOps
      [.record "A" [("x", .num (.val 1))] "customNode" "A" 0,
       .record "B" [("y", .num (.val 2))] "customNode" "B" 1]).nodeOutputs
      = some { status := "success", output := [("x", .num (.val 1))],
               timestamp := 0, nodeType := "customNode", nodeName := "A" } ∧
    (updateNodeOutput "A" [("x", .num (.val 1))] "customNode" "A" 5
      (clearNodeOutput "A" (runOps
        [.record "A" [("x", .num (.val 1))] "customNode" "A" 0,
         .record "B" [("y", .num (.val 2))] "customNode" "B" 1]))).source
      ≠ (runOps
        [.record "A" [("x", .num (.val 1))] "customNode" "A" 0,
         .record "B" [("y", .num (.val 2))] "customNode" "B" 1]).source := by
  decide

/-- C5 (amended): `ClearOutput(n)` followed by re-`RecordOutput` of `n`
with the same output, node type and name reproduces the pre-clear
`session` and `source` bit-for-bit provided the pre-clear `source` already
equals `n`'s stored (compacted) output and the pre-clear `session` equals
that output when `n` is a chat-input node, or the chat-input replay of the
other recorded outputs otherwise — e.g. whenever `n`'s result is the only
recorded one.  (Without that proviso the round trip resets `source` to
exactly `n`'s output, see the counterexample.) -/
theorem C5_clear_rerecord_roundtrip
    (st : WorkflowExecutionState) (nodeId : String) (r : NodeExecutionResult)
    (out : JRecord) (now : ℕ)
    (hlook : lookupStr nodeId st.nodeOutputs = some r)
    (hout : optimizeRecord out = r.output)
    (hsource : st.source = r.output)
    (hsession : if r.nodeType = "chatInputNode" then st.session = r.output
      else st.session = replaySession (delKey nodeId st.nodeOutputs)) :
    (updateNodeOutput nodeId out r.nodeType r.nodeName now
        (clearNodeOutput nodeId st)).session = st.session ∧
    (updateNodeOutput nodeId out r.nodeType r.nodeName now
        (clearNodeOutput nodeId st)).source = st.source := by
  constructor
  · by_cases hchat : r.nodeType = "chatInputNode"
    · have hs : st.session = r.output := by simpa [hchat] using hsession
      simp [updateNodeOutput, hchat, hout, hs]
    · rw [if_neg hchat] at hsession
      simp [updateNodeOutput, hchat, clearNodeOutput, hsession, replaySession]
  · simp [updateNodeOutput, hout, hsource]

/-- Witness for C5 (amended): single-node store, round trip at node "A". -/
theorem C5_clear_rerecord_roundtrip_witness :
    (updateNodeOutput "A" [("x", .num (.val 1))] "customNode" "A" 7
        (clearNodeOutput "A" (runOps
          [.record "A" [("x", .num (.val 1))] "customNode" "A" 0]))).session
      = (runOps [.record "A" [("x", .num (.val 1))] "customNode" "A" 0]).session ∧
    (updateNodeOutput "A" [("x", .num (.val 1))] "customNode" "A" 7
        (clearNodeOutput "A" (runOps
          [.record "A" [("x", .num (.val 1))] "customNode" "A" 0]))).source
      = (runOps [.record "A" [("x", .num (.val 1))] "customNode" "A" 0]).source := by
  exact C5_clear_rerecord_roundtrip
    (runOps [.record "A" [("x", .num (.val 1))] "customNode" "A" 0])
    "A"
    { status := "success", output := [("x", .num (.val 1))],
      timestamp := 0, nodeType := "customNode", nodeName := "A" }
    [("x", .num (.val 1))] 7
    (by decide) (by decide) (by decide) (by decide)

/-! ### Graph Predecessor Resolver (WorkflowExecutionContext.tsx:263-366)

`findPredecessors` is a depth-first traversal guarded by a visited set.
The embedding threads an explicit fuel; `dfsExhaust` below proves that the
chosen fuel bound is never reached (the `exhausted` flag stays `false` on
every input, cyclic graphs included), so the fuel is an artifact of the
embedding, not of the JS code, which terminates by the same visited-set
argument. -/

/-- A reactflow node as used by the resolver: an id and a type tag. -/
structure GNode where
  id : String
  type : String
deriving DecidableEq

/-- `getNodeById` (WorkflowExecutionContext.tsx:256-261). -/
def getNodeById (nodes : List GNode) (nodeId : String) : Option GNode :=
  nodes.find? (fun node => node.id == nodeId)

/-- State of the DFS: the predecessor set and visited set (both in JS `Set`
insertion order) plus the fuel-exhaustion marker of the embedding. -/
structure DfsState where
  preds : List String
  visited : List String
  exhausted : Bool
deriving DecidableEq

/-- JS `Set.add`: append if not yet present. -/
def addSet (x : String) (l : List String) : List String :=
  if x ∈ l then l else l ++ [x]

/-- The recursive `dfs` of `findPredecessors`
(WorkflowExecutionContext.tsx:270-281): skip visited nodes, mark the node
visited, then for every edge into it record the edge's source as a
predecessor and recurse on it. -/
def dfsAux (edges : List (String × String)) : ℕ → String → DfsState → DfsState
  | 0, _, s => { s with exhausted := true }
  | fuel + 1, nodeId, s =>
      if nodeId ∈ s.visited then s
      else
        edges.foldl (fun acc e =>
          if e.2 = nodeId then
            dfsAux edges fuel e.1 { acc with preds := addSet e.1 acc.preds }
          else acc)
          { s with visited := s.visited ++ [nodeId] }

/-- `findPredecessors` (WorkflowExecutionContext.tsx:266-285), with the
fuel bound proved sufficient by `dfsExhaust_false`. -/
def findPredecessorsState (edges : List (String × String))
    (targetNodeId : String) : DfsState :=
  dfsAux edges ((edges.map Prod.fst).length + 2) targetNodeId
    { preds := [], visited := [], exhausted := false }

/-- The predecessor list returned by `findPredecessors`. -/
def findPredecessors (edges : List (String × String)) (targetNodeId : String) :
    List String :=
  (findPredecessorsState edges targetNodeId).preds

/-- Number of potential DFS arguments not yet visited (the termination
measure: each non-trivial call visits one more edge source). -/
def unvisitedCount (edges : List (String × String)) (visited : List String) : ℕ :=
  ((edges.map Prod.fst).filter (fun y => decide (y ∉ visited))).length

theorem filter_length_mono {α : Type} (p q : α → Bool)
    (himp : ∀ y, p y = true → q y = true) :
    ∀ l : List α, (l.filter p).length ≤ (l.filter q).length := by
  intro l
  induction l with
  | nil => simp
  | cons a l ih =>
    by_cases hpa : p a = true
    · have hqa := himp a hpa
      simp [List.filter_cons, hpa, hqa]
      omega
    · have hpa' : p a = false := by
        cases h : p a
        · rfl
        · exact absurd h hpa
      by_cases hqa : q a = true
      · simp [List.filter_cons, hpa', hqa]
        omega
      · have hqa' : q a = false := by
          cases h : q a
          · rfl
          · exact absurd h hqa
        simp [List.filter_cons, hpa', hqa']
        exact ih

theorem filter_length_lt {α : Type} (p q : α → Bool)
    (himp : ∀ y, p y = true → q y = true) (x : α)
    (hq : q x = true) (hp : p x = false) :
    ∀ l : List α, x ∈ l → (l.filter p).length < (l.filter q).length := by
  intro l
  induction l with
  | nil => intro h; simp at h
  | cons a l ih =>
    intro hmem
    by_cases hpa : p a = true
    · have hqa := himp a hpa
      have hax : x ∈ l := by
        rcases List.mem_cons.mp hmem with h | h
        · exfalso; rw [h] at hp; rw [hp] at hpa; cases hpa
        · exact h
      have hlt := ih hax
      simp [List.filter_cons, hpa, hqa]
      omega
    · have hpa' : p a = false := by
        cases h : p a
        · rfl
        · exact absurd h hpa
      by_cases hqa : q a = true
      · simp [List.filter_cons, hpa', hqa]
        have := filter_length_mono p q himp l
        omega
      · have hqa' : q a = false := by
          cases h : q a
          · rfl
          · exact absurd h hqa
        have hax : x ∈ l := by
          rcases List.mem_cons.mp hmem with h | h
          · exfalso; rw [h] at hq; rw [hq] at hqa'; cases hqa'
          · exact h
        simp [List.filter_cons, hpa', hqa']
        exact ih hax

theorem unvisitedCount_mono (edges : List (String × String))
    {v w : List String} (hsub : ∀ x, x ∈ v → x ∈ w) :
    unvisitedCount edges w ≤ unvisitedCount edges v := by
  apply filter_length_mono
  intro y hy
  simp only [decide_eq_true_eq] at hy ⊢
  exact fun hmem => hy (hsub y hmem)

theorem unvisitedCount_append_lt (edges : List (String × String))
    {visited : List String} {x : String}
    (hx : x ∈ edges.map Prod.fst) (hnv : x ∉ visited) :
    unvisitedCount edges (visited ++ [x]) < unvisitedCount edges visited := by
  apply filter_length_lt _ _ ?_ x ?_ ?_ _ hx
  · intro y hy
    simp only [decide_eq_true_eq, List.mem_append] at hy ⊢
    exact fun hmem => hy (Or.inl hmem)
  · simpa using hnv
  · simp

/-- Fold step of the DFS over the edge list. -/
def dfsStep (edges : List (String × String)) (fuel : ℕ) (nodeId : String)
    (acc : DfsState) (e : String × String) : DfsState :=
  if e.2 = nodeId then
    dfsAux edges fuel e.1 { acc with preds := addSet e.1 acc.preds }
  else acc

theorem dfsAux_succ_not_visited (edges : List (String × String)) (fuel : ℕ)
    (nodeId : String) (s : DfsState) (h : nodeId ∉ s.visited) :
    dfsAux edges (fuel + 1) nodeId s
      = edges.foldl (dfsStep edges fuel nodeId) { s with visited := s.visited ++ [nodeId] } := by
  rw [dfsAux]
  simp only [h, if_false]
  rfl

theorem foldStep_visited_mono (edges : List (String × String)) (fuel : ℕ) (nodeId : String)
    (ih : ∀ x s y, y ∈ s.visited → y ∈ (dfsAux edges fuel x s).visited) :
    ∀ (l : List (String × String)) (s0 : DfsState) (y : String), y ∈ s0.visited →
      y ∈ (l.foldl (dfsStep edges fuel nodeId) s0).visited := by
  intro l
  induction l with
  | nil => intro s0 y hy; simpa using hy
  | cons e rest ihl =>
    intro s0 y hy
    simp only [List.foldl_cons]
    apply ihl
    unfold dfsStep
    by_cases he : e.2 = nodeId
    · simp only [he, if_pos rfl]
      exact ih e.1 _ y hy
    · simpa [he] using hy

/-- The DFS only grows the visited set. -/
theorem dfsAux_visited_mono (edges : List (String × String)) :
    ∀ (fuel : ℕ) (x : String) (s : DfsState) (y : String),
      y ∈ s.visited → y ∈ (dfsAux edges fuel x s).visited := by
  intro fuel
  induction fuel with
  | zero => intro x s y hy; simpa [dfsAux] using hy
  | succ fuel ih =>
    intro x s y hy
    by_cases hv : x ∈ s.visited
    · rw [dfsAux]; simpa [hv] using hy
    · rw [dfsAux_succ_not_visited edges fuel x s hv]
      apply foldStep_visited_mono edges fuel x ih
      simp [hy]

theorem foldStep_preds_mono (edges : List (String × String)) (fuel : ℕ) (nodeId : String)
    (ih : ∀ x s y, y ∈ s.preds → y ∈ (dfsAux edges fuel x s).preds) :
    ∀ (l : List (String × String)) (s0 : DfsState) (y : String), y ∈ s0.preds →
      y ∈ (l.foldl (dfsStep edges fuel nodeId) s0).preds := by
  intro l
  induction l with
  | nil => intro s0 y hy; simpa using hy
  | cons e rest ihl =>
    intro s0 y hy
    simp only [List.foldl_cons]
    apply ihl
    unfold dfsStep
    by_cases he : e.2 = nodeId
    · simp only [he, if_pos rfl]
      apply ih
      simp only [addSet]
      by_cases hm : e.1 ∈ s0.preds
      · simpa [hm] using hy
      · simp [hm, hy]
    · simpa [he] using hy

/-- The DFS only grows the predecessor set. -/
theorem dfsAux_preds_mono (edges : List (String × String)) :
    ∀ (fuel : ℕ) (x : String) (s : DfsState) (y : String),
      y ∈ s.preds → y ∈ (dfsAux edges fuel x s).preds := by
  intro fuel
  induction fuel with
  | zero => intro x s y hy; simpa [dfsAux] using hy
  | succ fuel ih =>
    intro x s y hy
    by_cases hv : x ∈ s.visited
    · rw [dfsAux]; simpa [hv] using hy
    · rw [dfsAux_succ_not_visited edges fuel x s hv]
      exact foldStep_preds_mono edges fuel x ih edges _ y hy

theorem foldStep_exhaust (edges : List (String × String)) (fuel : ℕ) (nodeId : String)
    (ihE : ∀ x s, (x ∈ s.visited ∨ x ∈ edges.map Prod.fst) →
      unvisitedCount edges s.visited + 1 ≤ fuel →
      (dfsAux edges fuel x s).exhausted = s.exhausted) :
    ∀ (l : List (String × String)) (s0 : DfsState),
      (∀ e ∈ l, e ∈ edges) →
      unvisitedCount edges s0.visited + 1 ≤ fuel →
      (l.foldl (dfsStep edges fuel nodeId) s0).exhausted = s0.exhausted := by
  intro l
  induction l with
  | nil => intro s0 _ _; rfl
  | cons e rest ihl =>
    intro s0 hsub hcount
    simp only [List.foldl_cons]
    by_cases he : e.2 = nodeId
    · have hmem : e ∈ edges := hsub e (by simp)
      have hsrc : e.1 ∈ edges.map Prod.fst := List.mem_map.mpr ⟨e, hmem, rfl⟩
      have hstep : dfsStep edges fuel nodeId s0 e
          = dfsAux edges fuel e.1 { s0 with preds := addSet e.1 s0.preds } := by
        unfold dfsStep; simp [he]
      rw [hstep]
      have hex : (dfsAux edges fuel e.1 { s0 with preds := addSet e.1 s0.preds }).exhausted
          = s0.exhausted :=
        ihE e.1 _ (Or.inr hsrc) hcount
      have hvis : ∀ y ∈ s0.visited,
          y ∈ (dfsAux edges fuel e.1 { s0 with preds := addSet e.1 s0.preds }).visited :=
        fun y hy => dfsAux_visited_mono edges fuel e.1 _ y hy
      have hm := unvisitedCount_mono edges hvis
      rw [ihl _ (fun f hf => hsub f (by simp [hf])) (by omega)]
      exact hex
    · have hstep : dfsStep edges fuel nodeId s0 e = s0 := by
        unfold dfsStep; simp [he]
      rw [hstep]
      exact ihl _ (fun f hf => hsub f (by simp [hf])) hcount

/-- With fuel exceeding the number of unvisited edge sources, the DFS never
exhausts its fuel: the visited set guarantees termination. -/
theorem dfsExhaust (edges : List (String × String)) :
    ∀ (fuel : ℕ) (x : String) (s : DfsState),
      (x ∈ s.visited ∨ x ∈ edges.map Prod.fst) →
      unvisitedCount edges s.visited + 1 ≤ fuel →
      (dfsAux edges fuel x s).exhausted = s.exhausted := by
  intro fuel
  induction fuel with
  | zero => intro x s _ hc; omega
  | succ fuel ih =>
    intro x s hx hcount
    by_cases hv : x ∈ s.visited
    · rw [dfsAux]; simp [hv]
    · rw [dfsAux_succ_not_visited edges fuel x s hv]
      have hx' : x ∈ edges.map Prod.fst := by
        rcases hx with h | h
        · exact absurd h hv
        · exact h
      have hlt : unvisitedCount edges (s.visited ++ [x]) < unvisitedCount edges s.visited :=
        unvisitedCount_append_lt edges hx' hv
      exact foldStep_exhaust edges fuel x ih edges _ (fun e he => he) (by simp; omega)

/-- `x ∈ addSet x l`. -/
theorem mem_addSet_self (x : String) (l : List String) : x ∈ addSet x l := by
  unfold addSet
  by_cases h : x ∈ l
  · simpa [h] using h
  · simp [h]

theorem foldStep_adds_direct (edges : List (String × String)) (fuel : ℕ) (nodeId : String) :
    ∀ (l : List (String × String)) (s0 : DfsState) (e : String × String),
      e ∈ l → e.2 = nodeId →
      e.1 ∈ (l.foldl (dfsStep edges fuel nodeId) s0).preds := by
  intro l
  induction l with
  | nil => intro s0 e he; simp at he
  | cons f rest ihl =>
    intro s0 e hmem he2
    simp only [List.foldl_cons]
    rcases List.mem_cons.mp hmem with h | h
    · subst h
      have hstep : dfsStep edges fuel nodeId s0 e
          = dfsAux edges fuel e.1 { s0 with preds := addSet e.1 s0.preds } := by
        unfold dfsStep; simp [he2]
      rw [hstep]
      apply foldStep_preds_mono edges fuel nodeId
        (fun x s y => dfsAux_preds_mono edges fuel x s y)
      exact dfsAux_preds_mono edges fuel e.1 _ e.1 (mem_addSet_self e.1 _)
    · exact ihl _ e h he2

/-- Every source of an edge into `target` is in the returned predecessor
set (direct predecessors are transitive predecessors). -/
theorem direct_mem_findPredecessors {edges : List (String × String)} {target p : String}
    (h : (p, target) ∈ edges) : p ∈ findPredecessors edges target := by
  unfold findPredecessors findPredecessorsState
  rw [dfsAux_succ_not_visited edges ((edges.map Prod.fst).length + 1) target _ (by simp)]
  exact foldStep_adds_direct edges _ target edges _ (p, target) h rfl

/-! ### Claim C2: behavior on cyclic graphs -/

/-- C2 (counterexample): on a single-node cycle (self-loop `A → A`) and on
a two-node cycle, the resolver terminates (the fuel marker stays `false`)
and silently returns the backward-reachable node set; no `CyclicGraphError`
(or error of any kind) is raised — the code has no error path at all. -/
theorem C2_cycle_returns_silently :
    findPredecessors [("A", "A")] "A" = ["A"] ∧
    (findPredecessorsState [("A", "A")] "A").exhausted = false ∧
    findPredecessors [("A", "B"), ("B", "A")] "A" = ["B", "A"] ∧
    (findPredecessorsState [("A", "B"), ("B", "A")] "A").exhausted = false := by
  decide

/-- C2 (amended): for every graph — cyclic ones, self-loops included — the
transitive-predecessor traversal terminates (the visited set prevents
revisiting, so the embedding's fuel bound is never exhausted) and silently
returns a predecessor list; no `CyclicGraphError` is raised (the
resolver's return type has no error outcome, mirroring the absence of any
error path in the code). -/
theorem C2_traversal_terminates_on_all_graphs
    (edges : List (String × String)) (targetNodeId : String) :
    (findPredecessorsState edges targetNodeId).exhausted = false := by
  unfold findPredecessorsState
  rw [dfsAux_succ_not_visited edges ((edges.map Prod.fst).length + 1) targetNodeId _ (by simp)]
  apply foldStep_exhaust edges _ targetNodeId
    (dfsExhaust edges ((edges.map Prod.fst).length + 1)) edges _ (fun e he => he)
  show unvisitedCount edges ([] ++ [targetNodeId]) + 1 ≤ (edges.map Prod.fst).length + 1
  have hle : unvisitedCount edges ([] ++ [targetNodeId])
      ≤ (edges.map Prod.fst).length := by
    unfold unvisitedCount
    exact List.length_filter_le _ _
  omega

/-! ### Claims C3 and C4: Schema Signature & Compaction -/

mutual
theorem compactEqAux : ∀ v, optimizeOutputForStorage v 2 = compactSpec v
  | .null => rfl
  | .undef => rfl
  | .bool _ => rfl
  | .num _ => rfl
  | .str _ => rfl
  | .arr [] => rfl
  | .arr (x :: rest) => by
      by_cases hc : 2 < (x :: rest).length ∧
          ∀ e ∈ x :: rest, getSchemaSignature e = getSchemaSignature x
      · have hbool : (decide (2 < (x :: rest).length) &&
            hasUniformSchema (x :: rest)) = true := by
          cases rest with
          | nil => simp at hc
          | cons y ys =>
            simp only [Bool.and_eq_true, decide_eq_true_eq]
            refine ⟨hc.1, ?_⟩
            simp only [hasUniformSchema, List.all_eq_true]
            intro e he
            simp only [beq_iff_eq]
            exact hc.2 e he
        simp only [optimizeOutputForStorage, compactSpec, hbool, if_pos hc, if_true]
        rw [compactEqAux x]
      · have hbool : (decide (2 < (x :: rest).length) &&
            hasUniformSchema (x :: rest)) = false := by
          by_cases hlen : 2 < (x :: rest).length
          · cases rest with
            | nil => simp at hlen
            | cons y ys =>
              have hne : ¬ ∀ e ∈ x :: y :: ys,
                  getSchemaSignature e = getSchemaSignature x :=
                fun hall => hc ⟨hlen, hall⟩
              have hus : hasUniformSchema (x :: y :: ys) = false := by
                cases h : hasUniformSchema (x :: y :: ys)
                · rfl
                · exfalso
                  apply hne
                  intro e he
                  have := (List.all_eq_true.mp h) e he
                  simpa using this
              simp [hus]
          · rw [decide_eq_false hlen, Bool.false_and]
        simp only [optimizeOutputForStorage, compactSpec, hbool, if_neg hc,
          Bool.false_eq_true, if_false]
        rw [compactListEqAux (x :: rest)]
  | .obj fields => by
      simp only [optimizeOutputForStorage, compactSpec]
      rw [compactFieldsEqAux fields]

theorem compactListEqAux : ∀ l, optimizeList l 2 = compactSpecList l
  | [] => rfl
  | x :: rest => by
      simp only [optimizeList, compactSpecList]
      rw [compactEqAux x, compactListEqAux rest]

theorem compactFieldsEqAux : ∀ fs, optimizeFields fs 2 = compactSpecFields fs
  | [] => rfl
  | kv :: rest => by
      simp only [optimizeFields, compactSpecFields]
      rw [compactEqAux kv.2, compactFieldsEqAux rest]
end

/-- C3: at the default threshold 2, `optimizeOutputForStorage` equals the
reference `Compact` written from the spec: uniform arrays longer than the
threshold become `{__optimized: true, __originalLength: N, items: [one
compacted representative]}`; other arrays are compacted element-wise
without truncation; objects field-wise; scalars pass through.  Totality
and purity over arbitrary JSON-like input hold by construction of the
embedding (a total function on `Json`). -/
theorem C3_compact_matches_reference (v : Json) :
    optimizeOutputForStorage v 2 = compactSpec v :=
  compactEqAux v

mutual
/-- Truncating arrays to one representative element does not change the
schema signature (the signature inspects only the first element). -/
theorem sig_truncateOne : ∀ v, getSchemaSignature (truncateOne v) = getSchemaSignature v
  | .null => rfl
  | .undef => rfl
  | .bool _ => rfl
  | .num _ => rfl
  | .str _ => rfl
  | .arr [] => rfl
  | .arr (x :: rest) => by
      simp only [truncateOne, getSchemaSignature]
      rw [sig_truncateOne x]
  | .obj fields => by
      simp only [truncateOne, getSchemaSignature]
      rw [sigFields_truncateFields fields]

theorem sigFields_truncateFields :
    ∀ fs, sigFields (truncateFields fs) = sigFields fs
  | [] => rfl
  | kv :: rest => by
      simp only [truncateFields, sigFields]
      rw [sig_truncateOne kv.2, sigFields_truncateFields rest]
end

mutual
/-- When no subtree triggers truncation, compaction is the identity. -/
theorem compact_id_of_noBig :
    ∀ v, noBigUniformArr v = true → optimizeOutputForStorage v 2 = v
  | .null, _ => rfl
  | .undef, _ => rfl
  | .bool _, _ => rfl
  | .num _, _ => rfl
  | .str _, _ => rfl
  | .arr items, h => by
      cases items with
      | nil => rfl
      | cons x rest =>
        have hsplit : (!(decide (2 < (x :: rest).length) && hasUniformSchema (x :: rest))) = true ∧
            noBigUniformList (x :: rest) = true := by
          simpa only [noBigUniformArr, Bool.and_eq_true] using h
        have hcond : (decide (2 < (x :: rest).length) && hasUniformSchema (x :: rest)) = false := by
          have h1 := hsplit.1
          cases hb : (decide (2 < (x :: rest).length) && hasUniformSchema (x :: rest)) with
          | false => rfl
          | true => rw [hb] at h1; simp at h1
        simp only [optimizeOutputForStorage, hcond, Bool.false_eq_true, if_false]
        rw [compactList_id_of_noBig (x :: rest) hsplit.2]
  | .obj fields, h => by
      have h2 : noBigUniformFields fields = true := h
      simp only [optimizeOutputForStorage]
      rw [compactFields_id_of_noBig fields h2]

theorem compactList_id_of_noBig :
    ∀ l, noBigUniformList l = true → optimizeList l 2 = l
  | [], _ => rfl
  | x :: rest, h => by
      simp only [noBigUniformList, Bool.and_eq_true] at h
      simp only [optimizeList]
      rw [compact_id_of_noBig x h.1, compactList_id_of_noBig rest h.2]

theorem compactFields_id_of_noBig :
    ∀ fs, noBigUniformFields fs = true → optimizeFields fs 2 = fs
  | [], _ => rfl
  | kv :: rest, h => by
      simp only [noBigUniformFields, Bool.and_eq_true] at h
      simp only [optimizeFields]
      rw [compact_id_of_noBig kv.2 h.1, compactFields_id_of_noBig rest h.2]
end

/-- C4 (counterexample): the shape-preservation law fails as stated.  For
`[1, 1, 1]` (uniform, longer than the threshold), `Compact` yields the
marker object, whose signature is an `object:...` signature, not the
`array:number` signature of the truncated array `[1]`. -/
theorem C4_shape_preservation_fails :
    getSchemaSignature
        (optimizeOutputForStorage
          (.arr [.num (.val 1), .num (.val 1), .num (.val 1)]) 2)
      ≠ getSchemaSignature
        (truncateOne (.arr [.num (.val 1), .num (.val 1), .num (.val 1)])) := by
  decide

/-- C4 (amended): for every value in which no array longer than the
threshold has a uniform element signature (so truncation never fires),
`Compact(v)` has the same `Signature` as `v` would have if its arrays were
truncated to one representative element; where truncation fires, the
compacted value's signature is the marker object's signature instead (see
the counterexample). -/
theorem C4_shape_preservation_without_truncation (v : Json)
    (h : noBigUniformArr v = true) :
    getSchemaSignature (optimizeOutputForStorage v 2)
      = getSchemaSignature (truncateOne v) := by
  rw [compact_id_of_noBig v h, sig_truncateOne v]

/-- Witness for C4 (amended) at a concrete nested value. -/
theorem C4_shape_preservation_without_truncation_witness :
    noBigUniformArr (.obj [("a", .arr [.num (.val 1), .num (.val 2)])]) = true ∧
    getSchemaSignature
        (optimizeOutputForStorage (.obj [("a", .arr [.num (.val 1), .num (.val 2)])]) 2)
      = getSchemaSignature
        (truncateOne (.obj [("a", .arr [.num (.val 1), .num (.val 2)])])) :=
  ⟨by decide,
   C4_shape_preservation_without_truncation
     (.obj [("a", .arr [.num (.val 1), .num (.val 2)])]) (by decide)⟩

/-! ### Data Availability Resolver (WorkflowExecutionContext.tsx:287-366) -/

/-- `filterOutput` (WorkflowExecutionContext.tsx:319-329): strip every
top-level key containing the marker substring `"session.direct_input"`
from an object; pass every non-object value through unchanged. -/
def filterOutput : Json → Json
  | .obj fields =>
      .obj (fields.filter (fun kv => !(includesStr kv.1 "session.direct_input")))
  | v => v

/-- The transitive predecessor ids used by the resolver: the DFS result
with the node itself filtered out (WorkflowExecutionContext.tsx:287-289). -/
def transPredecessorIds (edges : List (String × String)) (nodeId : String) :
    List String :=
  (findPredecessors edges nodeId).filter (fun id => id ≠ nodeId)

/-- Direct predecessors (WorkflowExecutionContext.tsx:306-317): sources of
edges into the node; when the node is an agent node, tool-builder
predecessors are excluded. -/
def directPredecessorsOf (nodes : List GNode) (edges : List (String × String))
    (nodeId : String) : List String :=
  ((edges.filter (fun e => e.2 = nodeId)).map Prod.fst).filter
    (fun predecessorId =>
      if (getNodeById nodes nodeId).any (fun n => n.type == "agentNode") then
        match getNodeById nodes predecessorId with
        | some pn => !(pn.type == "toolBuilderNode")
        | none => true
      else true)

/-- The `forEach` loops building the redacted-output maps
(WorkflowExecutionContext.tsx:331-338 and 347-354): for each id with a
recorded result, assign its redacted output under that id. -/
def buildAdOutputsFrom (st : WorkflowExecutionState) :
    List String → JRecord → JRecord
  | [], acc => acc
  | predecessorId :: rest, acc =>
      match lookupStr predecessorId st.nodeOutputs with
      | some r =>
          buildAdOutputsFrom st rest
            (setKey predecessorId (filterOutput (.obj r.output)) acc)
      | none => buildAdOutputsFrom st rest acc

/-- The `source` view (WorkflowExecutionContext.tsx:340-354): a single
direct predecessor's redacted output directly, or a map keyed by direct
predecessor ids otherwise. -/
def sourceForNode (nodes : List GNode) (edges : List (String × String))
    (state : WorkflowExecutionState) (nodeId : String) : Json :=
  match directPredecessorsOf nodes edges nodeId with
  | [p] =>
      match lookupStr p state.nodeOutputs with
      | some r => filterOutput (.obj r.output)
      | none => .obj []
  | dps => .obj (buildAdOutputsFrom state dps [])

/-- `getAvailableDataForNode` (WorkflowExecutionContext.tsx:263-366):
`none` embeds the JS `null` return. -/
def getAvailableDataForNode (nodes : List GNode) (edges : List (String × String))
    (state : WorkflowExecutionState) (nodeId : String) : Option Json :=
  if (transPredecessorIds edges nodeId).isEmpty &&
      (getNodeById nodes nodeId).any (fun n => n.type == "chatInputNode") then
    some (.obj state.session)
  else if (transPredecessorIds edges nodeId).isEmpty then
    none
  else
    some (.obj [("session", .obj state.session),
                ("source", sourceForNode nodes edges state nodeId),
                ("node_outputs",
                 .obj (buildAdOutputsFrom state (transPredecessorIds edges nodeId) []))])

/-- Project a field out of an `AvailableData` result. -/
def adField (ad : Option Json) (k : String) : Option Json :=
  match ad with
  | some (.obj fs) => lookupStr k fs
  | _ => none

/-- Top-level keys of a value (empty for non-objects). -/
def topKeys : Json → List String
  | .obj fields => fields.map Prod.fst
  | _ => []

theorem setKey_of_lookup_none {α : Type} {k : String} {m : List (String × α)}
    (h : lookupStr k m = none) (v : α) : setKey k v m = m ++ [(k, v)] := by
  unfold setKey
  rw [h]
  rfl

theorem lookupStr_append_of_none {α : Type} {k : String} {a : List (String × α)}
    (h : lookupStr k a = none) (b : List (String × α)) :
    lookupStr k (a ++ b) = lookupStr k b := by
  induction a with
  | nil => rfl
  | cons kv rest ih =>
    rw [lookupStr_cons] at h
    rw [List.cons_append, lookupStr_cons]
    by_cases hk : kv.1 = k
    · rw [if_pos hk] at h; cases h
    · rw [if_neg hk] at h
      rw [if_neg hk]
      exact ih h

theorem mem_setKey {α : Type} {k : String} {v : α} {m : List (String × α)} :
    ∀ kv ∈ setKey k v m, kv.2 = v ∨ kv ∈ m := by
  intro kv hkv
  unfold setKey at hkv
  by_cases h : (lookupStr k m).isSome
  · rw [if_pos h] at hkv
    rcases List.mem_map.mp hkv with ⟨a, ha, heq⟩
    by_cases hak : a.1 = k
    · left; rw [if_pos hak] at heq; rw [← heq]
    · right; rw [if_neg hak] at heq; rw [← heq]; exact ha
  · rw [if_neg h] at hkv
    rcases List.mem_append.mp hkv with h2 | h2
    · right; exact h2
    · left; simp at h2; rw [h2]

/-- With no recorded result for any listed id, the output map is untouched. -/
theorem buildAdOutputsFrom_none (st : WorkflowExecutionState) :
    ∀ (ids : List String) (acc : JRecord),
      (∀ p ∈ ids, lookupStr p st.nodeOutputs = none) →
      buildAdOutputsFrom st ids acc = acc := by
  intro ids
  induction ids with
  | nil => intro acc _; rfl
  | cons p rest ih =>
    intro acc hnone
    unfold buildAdOutputsFrom
    rw [hnone p (by simp)]
    exact ih acc (fun q hq => hnone q (by simp [hq]))

/-- With a recorded result for every listed id (and fresh, distinct ids),
the output map is exactly the list of redacted outputs keyed by id. -/
theorem buildAdOutputsFrom_map (st : WorkflowExecutionState)
    (ro : String → NodeExecutionResult) :
    ∀ (ids : List String) (acc : JRecord),
      (∀ p ∈ ids, lookupStr p st.nodeOutputs = some (ro p)) →
      ids.Nodup →
      (∀ p ∈ ids, lookupStr p acc = none) →
      buildAdOutputsFrom st ids acc
        = acc ++ ids.map (fun p => (p, filterOutput (.obj (ro p).output))) := by
  intro ids
  induction ids with
  | nil => intro acc _ _ _; simp [buildAdOutputsFrom]
  | cons p rest ih =>
    intro acc hsome hnd hfresh
    unfold buildAdOutputsFrom
    rw [hsome p (by simp)]
    show buildAdOutputsFrom st rest
        (setKey p (filterOutput (.obj (ro p).output)) acc) = _
    rw [setKey_of_lookup_none (hfresh p (by simp))]
    have hnd' := (List.nodup_cons.mp hnd)
    rw [ih _ (fun q hq => hsome q (by simp [hq])) hnd'.2 ?_]
    · simp
    · intro q hq
      rw [lookupStr_append_of_none (hfresh q (by simp [hq]))]
      have hqp : p ≠ q := fun h => hnd'.1 (h ▸ hq)
      simp [lookupStr_cons, lookupStr_nil, hqp]

/-- Every value in the built output map is a redacted output (or came from
the accumulator). -/
theorem buildAdOutputsFrom_values (st : WorkflowExecutionState)
    (P : Json → Prop) (hP : ∀ v, P (filterOutput v)) :
    ∀ (ids : List String) (acc : JRecord),
      (∀ kv ∈ acc, P kv.2) →
      ∀ kv ∈ buildAdOutputsFrom st ids acc, P kv.2 := by
  intro ids
  induction ids with
  | nil => intro acc hacc kv hkv; exact hacc kv hkv
  | cons p rest ih =>
    intro acc hacc kv hkv
    unfold buildAdOutputsFrom at hkv
    cases hl : lookupStr p st.nodeOutputs with
    | none =>
      rw [hl] at hkv
      exact ih acc hacc kv hkv
    | some r =>
      rw [hl] at hkv
      refine ih _ ?_ kv hkv
      intro lw hlw
      rcases mem_setKey lw hlw with h | h
      · rw [h]; exact hP _
      · exact hacc lw h

/-- Keys surviving redaction never contain the marker substring. -/
theorem topKeys_filterOutput (v : Json) :
    ∀ k ∈ topKeys (filterOutput v), includesStr k "session.direct_input" = false := by
  intro k hk
  cases v with
  | obj fields =>
    simp only [filterOutput, topKeys] at hk
    rcases List.mem_map.mp hk with ⟨kv, hmem, rfl⟩
    have h2 := (List.mem_filter.mp hmem).2
    simpa using h2
  | null => simp [filterOutput, topKeys] at hk
  | undef => simp [filterOutput, topKeys] at hk
  | bool b => simp [filterOutput, topKeys] at hk
  | num n => simp [filterOutput, topKeys] at hk
  | str s2 => simp [filterOutput, topKeys] at hk
  | arr items => simp [filterOutput, topKeys] at hk

/-- Direct predecessors are transitive predecessors: their ids appear in
the DFS result. -/
theorem directPredecessorsOf_sub (nodes : List GNode)
    (edges : List (String × String)) (nodeId : String) :
    ∀ p ∈ directPredecessorsOf nodes edges nodeId, p ∈ findPredecessors edges nodeId := by
  intro p hp
  unfold directPredecessorsOf at hp
  have hp2 := List.mem_of_mem_filter hp
  rcases List.mem_map.mp hp2 with ⟨e, he, rfl⟩
  have he2 := List.mem_filter.mp he
  have h3 : e.2 = nodeId := by simpa using he2.2
  have h4 : (e.1, nodeId) ∈ edges := by
    rw [← h3]
    simpa using he2.1
  exact direct_mem_findPredecessors h4

/-- When the node has transitive predecessors, `AvailableData` is the
three-field record (never `null`). -/
theorem getAvailableDataForNode_data (nodes : List GNode)
    (edges : List (String × String)) (st : WorkflowExecutionState) (nodeId : String)
    (htrans : transPredecessorIds edges nodeId ≠ []) :
    getAvailableDataForNode nodes edges st nodeId
      = some (.obj [("session", .obj st.session),
                    ("source", sourceForNode nodes edges st nodeId),
                    ("node_outputs",
                     .obj (buildAdOutputsFrom st (transPredecessorIds edges nodeId) []))]) := by
  unfold getAvailableDataForNode
  cases hte : transPredecessorIds edges nodeId with
  | nil => exact absurd hte htrans
  | cons a l => simp [hte]

theorem adSourceSingleAux (nodes : List GNode) (edges : List (String × String))
    (st : WorkflowExecutionState) (nodeId p : String) (r : NodeExecutionResult)
    (htrans : transPredecessorIds edges nodeId ≠ [])
    (hdp : directPredecessorsOf nodes edges nodeId = [p])
    (hr : lookupStr p st.nodeOutputs = some r) :
    adField (getAvailableDataForNode nodes edges st nodeId) "source"
      = some (filterOutput (.obj r.output)) := by
  rw [getAvailableDataForNode_data nodes edges st nodeId htrans]
  show some (sourceForNode nodes edges st nodeId) = _
  unfold sourceForNode
  rw [hdp]
  show some (match lookupStr p st.nodeOutputs with
    | some r => filterOutput (Json.obj r.output)
    | none => Json.obj []) = _
  rw [hr]

theorem adSourceMultiAux (nodes : List GNode) (edges : List (String × String))
    (st : WorkflowExecutionState) (nodeId : String) (dps : List String)
    (ro : String → NodeExecutionResult)
    (htrans : transPredecessorIds edges nodeId ≠ [])
    (hdp : directPredecessorsOf nodes edges nodeId = dps)
    (hlen : 2 ≤ dps.length)
    (hnd : dps.Nodup)
    (hro : ∀ p ∈ dps, lookupStr p st.nodeOutputs = some (ro p)) :
    adField (getAvailableDataForNode nodes edges st nodeId) "source"
      = some (.obj (dps.map (fun p => (p, filterOutput (.obj (ro p).output))))) := by
  rw [getAvailableDataForNode_data nodes edges st nodeId htrans]
  show some (sourceForNode nodes edges st nodeId) = _
  unfold sourceForNode
  rw [hdp]
  cases dps with
  | nil => simp at hlen
  | cons a l =>
    cases l with
    | nil => simp at hlen
    | cons b m =>
      show some (Json.obj (buildAdOutputsFrom st (a :: b :: m) [])) = _
      rw [buildAdOutputsFrom_map st ro (a :: b :: m) [] hro hnd (fun q _ => rfl)]
      simp

theorem adScenarioAux (outA outB : JRecord) (nmA nmB : String) (tA tB : ℕ) :
    getAvailableDataForNode
      [⟨"A", "customNode"⟩, ⟨"B", "customNode"⟩, ⟨"C", "customNode"⟩]
      [("A", "B"), ("B", "C")]
      (updateNodeOutput "B" outB "customNode" nmB tB
        (updateNodeOutput "A" outA "customNode" nmA tA initialState))
      "C"
    = some (.obj [("session", .obj []),
                  ("source", filterOutput (.obj (optimizeRecord outB))),
                  ("node_outputs",
                   .obj [("B", filterOutput (.obj (optimizeRecord outB))),
                         ("A", filterOutput (.obj (optimizeRecord outA)))])]) := rfl

/-- C6: in the availability view, a node with exactly one direct
predecessor (that has a recorded result) gets that predecessor's redacted
output as `source` directly; a node with multiple direct predecessors
(each with a recorded result) gets `source` as an object keyed by each
direct predecessor's id mapping to its redacted output; and in the
scenario `A → B → C` with `A` and `B` both recorded, `AvailableData(C)`
has `source` equal to `B`'s redacted output and `node_outputs` containing
exactly `A`'s and `B`'s redacted outputs keyed by node id. -/
theorem C6_available_data_source_rule :
    (∀ (nodes : List GNode) (edges : List (String × String))
        (st : WorkflowExecutionState) (nodeId p : String) (r : NodeExecutionResult),
      transPredecessorIds edges nodeId ≠ [] →
      directPredecessorsOf nodes edges nodeId = [p] →
      lookupStr p st.nodeOutputs = some r →
      adField (getAvailableDataForNode nodes edges st nodeId) "source"
        = some (filterOutput (.obj r.output))) ∧
    (∀ (nodes : List GNode) (edges : List (String × String))
        (st : WorkflowExecutionState) (nodeId : String) (dps : List String)
        (ro : String → NodeExecutionResult),
      transPredecessorIds edges nodeId ≠ [] →
      directPredecessorsOf nodes edges nodeId = dps →
      2 ≤ dps.length →
      dps.Nodup →
      (∀ p ∈ dps, lookupStr p st.nodeOutputs = some (ro p)) →
      adField (getAvailableDataForNode nodes edges st nodeId) "source"
        = some (.obj (dps.map (fun p => (p, filterOutput (.obj (ro p).output)))))) ∧
    (∀ (outA outB : JRecord) (nmA nmB : String) (tA tB : ℕ),
      getAvailableDataForNode
        [⟨"A", "customNode"⟩, ⟨"B", "customNode"⟩, ⟨"C", "customNode"⟩]
        [("A", "B"), ("B", "C")]
        (updateNodeOutput "B" outB "customNode" nmB tB
          (updateNodeOutput "A" outA "customNode" nmA tA initialState))
        "C"
      = some (.obj [("session", .obj []),
                    ("source", filterOutput (.obj (optimizeRecord outB))),
                    ("node_outputs",
                     .obj [("B", filterOutput (.obj (optimizeRecord outB))),
                           ("A", filterOutput (.obj (optimizeRecord outA)))])])) :=
  ⟨adSourceSingleAux, adSourceMultiAux, adScenarioAux⟩

/-- Witness for C6 at a concrete single-predecessor graph `A → B → C` and a
concrete two-predecessor graph `A → C`, `B → C`. -/
theorem C6_available_data_source_rule_witness :
    adField (getAvailableDataForNode
        [⟨"A", "customNode"⟩, ⟨"B", "customNode"⟩, ⟨"C", "customNode"⟩]
        [("A", "B"), ("B", "C")]
        (updateNodeOutput "B" [("b", .num (.val 1))] "customNode" "B" 1
          (updateNodeOutput "A" [("a", .num (.val 0))] "customNode" "A" 0 initialState))
        "C") "source"
      = some (filterOutput (.obj [("b", .num (.val 1))])) ∧
    adField (getAvailableDataForNode
        [⟨"A", "customNode"⟩, ⟨"B", "customNode"⟩, ⟨"C", "customNode"⟩]
        [("A", "C"), ("B", "C")]
        (updateNodeOutput "B" [("b", .num (.val 1))] "customNode" "B" 1
          (updateNodeOutput "A" [("a", .num (.val 0))] "customNode" "A" 0 initialState))
        "C") "source"
      = some (.obj
          (["A", "B"].map (fun p =>
            (p, filterOutput (.obj
              ((fun q => if q = "A" then
                  ({ status := "success", output := [("a", .num (.val 0))],
                     timestamp := 0, nodeType := "customNode", nodeName := "A" }
                   : NodeExecutionResult)
                else
                  { status := "success", output := [("b", .num (.val 1))],
                    timestamp := 1, nodeType := "customNode", nodeName := "B" }) p).output))))) := by
  constructor
  · exact C6_available_data_source_rule.1
      [⟨"A", "customNode"⟩, ⟨"B", "customNode"⟩, ⟨"C", "customNode"⟩]
      [("A", "B"), ("B", "C")]
      (updateNodeOutput "B" [("b", .num (.val 1))] "customNode" "B" 1
        (updateNodeOutput "A" [("a", .num (.val 0))] "customNode" "A" 0 initialState))
      "C" "B"
      { status := "success", output := [("b", .num (.val 1))],
        timestamp := 1, nodeType := "customNode", nodeName := "B" }
      (by decide) (by decide) (by decide)
  · exact C6_available_data_source_rule.2.1
      [⟨"A", "customNode"⟩, ⟨"B", "customNode"⟩, ⟨"C", "customNode"⟩]
      [("A", "C"), ("B", "C")]
      (updateNodeOutput "B" [("b", .num (.val 1))] "customNode" "B" 1
        (updateNodeOutput "A" [("a", .num (.val 0))] "customNode" "A" 0 initialState))
      "C" ["A", "B"]
      (fun q => if q = "A" then
          { status := "success", output := [("a", .num (.val 0))],
            timestamp := 0, nodeType := "customNode", nodeName := "A" }
        else
          { status := "success", output := [("b", .num (.val 1))],
            timestamp := 1, nodeType := "customNode", nodeName := "B" })
      (by decide) (by decide) (by decide) (by decide) (by decide)

theorem adEntryAux (nodes : List GNode) (edges : List (String × String))
    (st : WorkflowExecutionState) (nodeId : String) (nd : GNode)
    (hpreds : transPredecessorIds edges nodeId = [])
    (hnode : getNodeById nodes nodeId = some nd)
    (htype : nd.type = "chatInputNode") :
    getAvailableDataForNode nodes edges st nodeId = some (.obj st.session) := by
  unfold getAvailableDataForNode
  rw [hpreds, hnode]
  simp [htype]

theorem adNullAux (nodes : List GNode) (edges : List (String × String))
    (st : WorkflowExecutionState) (nodeId : String)
    (hpreds : transPredecessorIds edges nodeId = [])
    (hnotchat : ∀ nd, getNodeById nodes nodeId = some nd → nd.type ≠ "chatInputNode") :
    getAvailableDataForNode nodes edges st nodeId = none := by
  unfold getAvailableDataForNode
  rw [hpreds]
  have hany : (getNodeById nodes nodeId).any (fun n => n.type == "chatInputNode") = false := by
    cases hn : getNodeById nodes nodeId with
    | none => rfl
    | some nd => simp [Option.any, hnotchat nd hn]
  simp [hany]

theorem adEmptyAux (nodes : List GNode) (edges : List (String × String))
    (st : WorkflowExecutionState) (nodeId : String)
    (hne : transPredecessorIds edges nodeId ≠ [])
    (hnone : ∀ p ∈ findPredecessors edges nodeId, lookupStr p st.nodeOutputs = none) :
    getAvailableDataForNode nodes edges st nodeId
      = some (.obj [("session", .obj st.session), ("source", .obj []),
                    ("node_outputs", .obj [])]) := by
  rw [getAvailableDataForNode_data nodes edges st nodeId hne]
  have hno : buildAdOutputsFrom st (transPredecessorIds edges nodeId) [] = [] :=
    buildAdOutputsFrom_none st _ [] (fun p hp => hnone p (List.mem_of_mem_filter hp))
  have hsource : sourceForNode nodes edges st nodeId = .obj [] := by
    unfold sourceForNode
    cases hdp : directPredecessorsOf nodes edges nodeId with
    | nil => rfl
    | cons a l =>
      cases l with
      | nil =>
        have ha : a ∈ findPredecessors edges nodeId :=
          directPredecessorsOf_sub nodes edges nodeId a (by rw [hdp]; simp)
        show (match lookupStr a st.nodeOutputs with
          | some r => filterOutput (Json.obj r.output)
          | none => Json.obj []) = Json.obj []
        rw [hnone a ha]
      | cons b m =>
        show Json.obj (buildAdOutputsFrom st (a :: b :: m) []) = Json.obj []
        rw [buildAdOutputsFrom_none st _ []
          (fun p hp => hnone p (directPredecessorsOf_sub nodes edges nodeId p
            (by rw [hdp]; exact hp)))]
  rw [hno, hsource]

/-- C7: `AvailableData` distinguishes not-found from empty: a node with
zero transitive predecessors that is an entry-point (chat-input) type gets
the store's `session` directly; a node with zero transitive predecessors
that is not an entry-point type gets `null`; and a node with transitive
predecessors none of which have a recorded result gets the
`AvailableData` shape with empty `source` and `node_outputs` maps, never
`null`. -/
theorem C7_not_found_vs_empty :
    (∀ (nodes : List GNode) (edges : List (String × String))
        (st : WorkflowExecutionState) (nodeId : String) (nd : GNode),
      transPredecessorIds edges nodeId = [] →
      getNodeById nodes nodeId = some nd →
      nd.type = "chatInputNode" →
      getAvailableDataForNode nodes edges st nodeId = some (.obj st.session)) ∧
    (∀ (nodes : List GNode) (edges : List (String × String))
        (st : WorkflowExecutionState) (nodeId : String),
      transPredecessorIds edges nodeId = [] →
      (∀ nd, getNodeById nodes nodeId = some nd → nd.type ≠ "chatInputNode") →
      getAvailableDataForNode nodes edges st nodeId = none) ∧
    (∀ (nodes : List GNode) (edges : List (String × String))
        (st : WorkflowExecutionState) (nodeId : String),
      transPredecessorIds edges nodeId ≠ [] →
      (∀ p ∈ findPredecessors edges nodeId, lookupStr p st.nodeOutputs = none) →
      getAvailableDataForNode nodes edges st nodeId
        = some (.obj [("session", .obj st.session), ("source", .obj []),
                      ("node_outputs", .obj [])])) :=
  ⟨adEntryAux, adNullAux, adEmptyAux⟩

/-- Witness for C7: entry point with no edges gets the session; a plain
node with no predecessors gets `null`; a node whose sole predecessor has
not executed gets the empty shape. -/
theorem C7_not_found_vs_empty_witness :
    getAvailableDataForNode [⟨"Chat", "chatInputNode"⟩] [] initialState "Chat"
      = some (.obj initialState.session) ∧
    getAvailableDataForNode [⟨"X", "customNode"⟩] [] initialState "X" = none ∧
    getAvailableDataForNode [⟨"A", "customNode"⟩, ⟨"B", "customNode"⟩]
        [("A", "B")] initialState "B"
      = some (.obj [("session", .obj initialState.session), ("source", .obj []),
                    ("node_outputs", .obj [])]) := by
  refine ⟨?_, ?_, ?_⟩
  · exact C7_not_found_vs_empty.1 [⟨"Chat", "chatInputNode"⟩] [] initialState "Chat"
      ⟨"Chat", "chatInputNode"⟩ (by decide) (by decide) (by decide)
  · exact C7_not_found_vs_empty.2.1 [⟨"X", "customNode"⟩] [] initialState "X"
      (by decide) (by intro nd h; cases h; decide)
  · exact C7_not_found_vs_empty.2.2 [⟨"A", "customNode"⟩, ⟨"B", "customNode"⟩]
      [("A", "B")] initialState "B" (by decide) (by decide)

/-- C8: every predecessor output exposed by `AvailableData` — whether as
the single-direct-predecessor `source`, as a value of the multi-direct-
predecessor `source` map, or as a value of `node_outputs` — has no
top-level key containing the marker substring `"session.direct_input"`. -/
theorem C8_redaction_strips_marker_keys
    (nodes : List GNode) (edges : List (String × String))
    (st : WorkflowExecutionState) (nodeId : String)
    (htrans : transPredecessorIds edges nodeId ≠ []) :
    (∀ fs, adField (getAvailableDataForNode nodes edges st nodeId) "node_outputs"
        = some (.obj fs) →
      ∀ kv ∈ fs, ∀ k ∈ topKeys kv.2, includesStr k "session.direct_input" = false) ∧
    (∀ p, directPredecessorsOf nodes edges nodeId = [p] →
      ∀ v, adField (getAvailableDataForNode nodes edges st nodeId) "source" = some v →
      ∀ k ∈ topKeys v, includesStr k "session.direct_input" = false) ∧
    ((directPredecessorsOf nodes edges nodeId).length ≠ 1 →
      ∀ fs, adField (getAvailableDataForNode nodes edges st nodeId) "source"
        = some (.obj fs) →
      ∀ kv ∈ fs, ∀ k ∈ topKeys kv.2, includesStr k "session.direct_input" = false) := by
  have hAD := getAvailableDataForNode_data nodes edges st nodeId htrans
  refine ⟨?_, ?_, ?_⟩
  · intro fs h kv hkv k hk
    rw [hAD] at h
    have hfs : Json.obj (buildAdOutputsFrom st (transPredecessorIds edges nodeId) [])
        = Json.obj fs := by
      have h2 : some (Json.obj (buildAdOutputsFrom st (transPredecessorIds edges nodeId) []))
          = some (Json.obj fs) := h
      exact Option.some.inj h2
    have hfs2 : fs = buildAdOutputsFrom st (transPredecessorIds edges nodeId) [] := by
      cases hfs; rfl
    rw [hfs2] at hkv
    exact buildAdOutputsFrom_values st
      (fun v => ∀ k ∈ topKeys v, includesStr k "session.direct_input" = false)
      topKeys_filterOutput _ [] (by intro lw hlw; cases hlw) kv hkv k hk
  · intro p hdp v h k hk
    rw [hAD] at h
    have hv : sourceForNode nodes edges st nodeId = v := by
      have h2 : some (sourceForNode nodes edges st nodeId) = some v := h
      exact Option.some.inj h2
    rw [← hv] at hk
    unfold sourceForNode at hk
    rw [hdp] at hk
    revert hk
    show k ∈ topKeys (match lookupStr p st.nodeOutputs with
      | some r => filterOutput (Json.obj r.output)
      | none => Json.obj []) → _
    cases hl : lookupStr p st.nodeOutputs with
    | some r =>
      intro hk
      exact topKeys_filterOutput _ k hk
    | none =>
      intro hk
      simp [topKeys] at hk
  · intro hlen fs h kv hkv k hk
    rw [hAD] at h
    have hv : sourceForNode nodes edges st nodeId = Json.obj fs := by
      have h2 : some (sourceForNode nodes edges st nodeId) = some (Json.obj fs) := h
      exact Option.some.inj h2
    unfold sourceForNode at hv
    cases hdp : directPredecessorsOf nodes edges nodeId with
    | nil =>
      rw [hdp] at hv
      have hfs : fs = buildAdOutputsFrom st [] [] := by
        have := hv
        cases this; rfl
      rw [hfs] at hkv
      cases hkv
    | cons a l =>
      cases l with
      | nil => rw [hdp] at hlen; simp at hlen
      | cons b m =>
        rw [hdp] at hv
        have hfs : fs = buildAdOutputsFrom st (a :: b :: m) [] := by
          have h3 : Json.obj (buildAdOutputsFrom st (a :: b :: m) []) = Json.obj fs := hv
          cases h3; rfl
        rw [hfs] at hkv
        exact buildAdOutputsFrom_values st
          (fun v => ∀ k ∈ topKeys v, includesStr k "session.direct_input" = false)
          topKeys_filterOutput _ [] (by intro lw hlw; cases hlw) kv hkv k hk

/-- Witness for C8 at a concrete graph in which the predecessor's stored
output contains a marker key: the exposed key `"ok"` is marker-free. -/
theorem C8_redaction_strips_marker_keys_witness :
    includesStr "ok" "session.direct_input" = false :=
  (C8_redaction_strips_marker_keys
    [⟨"A", "customNode"⟩, ⟨"B", "customNode"⟩]
    [("A", "B")]
    (updateNodeOutput "A"
      [("ok", .num (.val 1)), ("x.session.direct_input.y", .num (.val 2))]
      "customNode" "A" 0 initialState)
    "B" (by decide)).1
    [("A", .obj [("ok", .num (.val 1))])] (by decide)
    ("A", .obj [("ok", .num (.val 1))]) (by decide)
    "ok" (by decide)

/-! ### Template Variable Engine: typed input parsing (part_007:449-502)

`parseInputValue` relies on the JS builtins `parseFloat` and `JSON.parse`;
both are embedded below following their ECMAScript semantics (numeric
values as exact rationals — no claim below depends on float rounding). -/

/-- Decimal digit test. -/
def isDigitCh (c : Char) : Bool := '0' ≤ c && c ≤ '9'

/-- Numeric value of a decimal digit. -/
def digitVal (c : Char) : ℕ := c.toNat - '0'.toNat

/-- Split off the longest digit prefix. -/
def takeDigits (cs : List Char) : List Char × List Char :=
  (cs.takeWhile isDigitCh, cs.dropWhile isDigitCh)

/-- Decimal digits to a natural number. -/
def digitsToNat (ds : List Char) : ℕ :=
  ds.foldl (fun acc c => acc * 10 + digitVal c) 0

/-- Exact rational value of a decimal literal
`intDs . fracDs × 10 ^ expVal` (kernel-computable via `mkRat`). -/
def decToRat (intDs fracDs : List Char) (expVal : ℤ) : ℚ :=
  let base : ℤ := (digitsToNat intDs * 10 ^ fracDs.length + digitsToNat fracDs : ℕ)
  if 0 ≤ expVal then
    mkRat (base * (10 : ℤ) ^ expVal.toNat) ((10 : ℕ) ^ fracDs.length)
  else
    mkRat base ((10 : ℕ) ^ fracDs.length * (10 : ℕ) ^ (-expVal).toNat)

/-- Read an optional exponent sign, as a factor. -/
def readExpSign : List Char → ℤ × List Char
  | '+' :: r => (1, r)
  | '-' :: r => (-1, r)
  | r => (1, r)

/-- ECMAScript `parseFloat`: skip leading whitespace, read an optional
sign, then either `Infinity` or the longest decimal-literal prefix
(`digits [. digits] [e/E [sign] digits]`, where an exponent marker without
digits is ignored); `none` embeds NaN (no numeric prefix at all). -/
def jsParseFloat (s : String) : Option JsNum :=
  let cs := s.toList.dropWhile Char.isWhitespace
  let signAndRest : Bool × List Char :=
    match cs with
    | '-' :: r => (true, r)
    | '+' :: r => (false, r)
    | _ => (false, cs)
  let neg := signAndRest.1
  let cs1 := signAndRest.2
  if leadsList "Infinity".toList cs1 then some (.inf neg)
  else
    let (intDs, cs2) := takeDigits cs1
    let fracAndRest : List Char × List Char :=
      match cs2 with
      | '.' :: r => takeDigits r
      | _ => ([], cs2)
    let fracDs := fracAndRest.1
    let cs3 := fracAndRest.2
    if intDs.isEmpty && fracDs.isEmpty then none
    else
      let expVal : ℤ :=
        match cs3 with
        | 'e' :: r | 'E' :: r =>
            let (esign, r1) := readExpSign r
            let eds := (takeDigits r1).1
            if eds.isEmpty then 0 else esign * (digitsToNat eds : ℤ)
        | _ => 0
      let q := decToRat intDs fracDs expVal
      some (.val (if neg then -q else q))

/-- JSON whitespace (space, tab, line feed, carriage return). -/
def jsonWs (c : Char) : Bool := ([' ', '\t', '\n', '\r'] : List Char).contains c

/-- Skip JSON whitespace. -/
def skipJsonWs (cs : List Char) : List Char := cs.dropWhile jsonWs

/-- Hexadecimal digit value. -/
def jsonHexVal (c : Char) : Option ℕ :=
  if isDigitCh c then some (digitVal c)
  else if 'a' ≤ c && c ≤ 'f' then some (c.toNat + 10 - 'a'.toNat)
  else if 'A' ≤ c && c ≤ 'F' then some (c.toNat + 10 - 'A'.toNat)
  else none

/-- Single-character JSON escapes. -/
def jsonEscape : Char → Option Char
  | '"' => some '"'
  | '\\' => some '\\'
  | '/' => some '/'
  | 'b' => some (Char.ofNat 8)
  | 'f' => some (Char.ofNat 12)
  | 'n' => some '\n'
  | 'r' => some '\r'
  | 't' => some '\t'
  | _ => none

/-- Parse a JSON string body after the opening quote. -/
def parseJsonStringAux (acc : List Char) : List Char → Option (String × List Char)
  | [] => none
  | c :: rest =>
      if c == '"' then some (String.mk acc.reverse, rest)
      else if c == '\\' then
        match rest with
        | 'u' :: a :: b :: c2 :: d :: r =>
            match jsonHexVal a, jsonHexVal b, jsonHexVal c2, jsonHexVal d with
            | some va, some vb, some vc, some vd =>
                parseJsonStringAux
                  (Char.ofNat (va * 4096 + vb * 256 + vc * 16 + vd) :: acc) r
            | _, _, _, _ => none
        | e :: r =>
            match jsonEscape e with
            | some ch => parseJsonStringAux (ch :: acc) r
            | none => none
        | [] => none
      else if c.toNat < 32 then none
      else parseJsonStringAux (c :: acc) rest

/-- Parse a JSON number (strict grammar: no leading `+`, no leading
zeros, a fraction/exponent must carry digits). -/
def parseJsonNumber (cs : List Char) : Option (JsNum × List Char) := do
  let (neg, afterSign) : Bool × List Char :=
    match cs with
    | '-' :: r => (true, r)
    | _ => (false, cs)
  let (intDs, cs2) ← (do
    match afterSign with
    | '0' :: r => pure (['0'], r)
    | c :: r =>
        if isDigitCh c && !(c == '0') then
          let (ds, r2) := takeDigits r
          pure (c :: ds, r2)
        else none
    | [] => none : Option (List Char × List Char))
  let (fracDs, cs3) ← (do
    match cs2 with
    | '.' :: r =>
        let (ds, r2) := takeDigits r
        if ds.isEmpty then none else pure (ds, r2)
    | _ => pure ([], cs2) : Option (List Char × List Char))
  let (expVal, cs4) ← (do
    match cs3 with
    | 'e' :: r | 'E' :: r =>
        let (esign, r1) := readExpSign r
        let (eds, r2) := takeDigits r1
        if eds.isEmpty then none
        else pure (esign * (digitsToNat eds : ℤ), r2)
    | _ => pure ((0 : ℤ), cs3) : Option (ℤ × List Char))
  let q := decToRat intDs fracDs expVal
  pure (.val (if neg then -q else q), cs4)

/-- Strip a literal token prefix. -/
def stripToken (tok : List Char) (cs : List Char) : Option (List Char) :=
  if leadsList tok cs then some (cs.drop tok.length) else none

mutual
/-- One JSON value (fuel-indexed recursive descent; the fuel in
`jsonParse` is ample for the input length, each level consumes input). -/
def jsonParseVal : ℕ → List Char → Option (Json × List Char)
  | 0, _ => none
  | fuel + 1, cs =>
      match skipJsonWs cs with
      | [] => none
      | c :: r =>
          if c == 'n' then do
            let r2 ← stripToken "null".toList (c :: r)
            pure (.null, r2)
          else if c == 't' then do
            let r2 ← stripToken "true".toList (c :: r)
            pure (.bool true, r2)
          else if c == 'f' then do
            let r2 ← stripToken "false".toList (c :: r)
            pure (.bool false, r2)
          else if c == '"' then do
            let (s, r2) ← parseJsonStringAux [] r
            pure (.str s, r2)
          else if c == '[' then
            match skipJsonWs r with
            | ']' :: r2 => some (.arr [], r2)
            | r2 => do
                let (es, r3) ← jsonParseElems fuel r2
                pure (.arr es, r3)
          else if c == '{' then
            match skipJsonWs r with
            | '}' :: r2 => some (.obj [], r2)
            | r2 => do
                let (ms, r3) ← jsonParseMembers fuel r2
                pure (.obj ms, r3)
          else if c == '-' || isDigitCh c then do
            let (n, r2) ← parseJsonNumber (c :: r)
            pure (.num n, r2)
          else none

/-- One-or-more comma-separated JSON array elements up to `]`. -/
def jsonParseElems : ℕ → List Char → Option (List Json × List Char)
  | 0, _ => none
  | fuel + 1, cs => do
      let (v, r) ← jsonParseVal fuel cs
      match skipJsonWs r with
      | ',' :: r2 => do
          let (vs, r3) ← jsonParseElems fuel r2
          pure (v :: vs, r3)
      | ']' :: r2 => pure ([v], r2)
      | _ => none

/-- One-or-more comma-separated JSON object members up to `}`. -/
def jsonParseMembers : ℕ → List Char → Option (List (String × Json) × List Char)
  | 0, _ => none
  | fuel + 1, cs => do
      let r ← (match skipJsonWs cs with
        | '"' :: r => some r
        | _ => none : Option (List Char))
      let (key, r1) ← parseJsonStringAux [] r
      let r2 ← (match skipJsonWs r1 with
        | ':' :: r2 => some r2
        | _ => none : Option (List Char))
      let (v, r3) ← jsonParseVal fuel r2
      match skipJsonWs r3 with
      | ',' :: r4 => do
          let (ms, r5) ← jsonParseMembers fuel r4
          pure ((key, v) :: ms, r5)
      | '}' :: r4 => pure ([(key, v)], r4)
      | _ => none
end

/-- `JSON.parse`: a complete JSON document with only trailing whitespace. -/
def jsonParse (s : String) : Option Json := do
  let (j, rest) ← jsonParseVal (2 * s.toList.length + 2) s.toList
  if (skipJsonWs rest).isEmpty then pure j else none

/-- JS `String.prototype.trim`: drop whitespace from both ends
(embedded over the character list so it computes in the kernel). -/
def jsTrim (s : String) : String :=
  String.mk (((s.toList.dropWhile Char.isWhitespace).reverse.dropWhile
    Char.isWhitespace).reverse)

/-- JS `String.prototype.toLowerCase` (ASCII case mapping). -/
def jsToLower (s : String) : String :=
  String.mk (s.toList.map Char.toLower)

/-- `parseInputValue` (part_007:449-502): type-directed coercion of a
free-text value with soft failure — every failing branch throws, the
surrounding catch returns the original string. -/
def parseInputValue (value : String) (type : String) : Json :=
  if value = "" ∨ jsTrim value = "" then .str value
  else
    match type with
    | "string" => .str value
    | "number" =>
        match jsParseFloat value with
        | some n => .num n
        | none => .str value
    | "boolean" =>
        let lowerValue := jsTrim (jsToLower value)
        if lowerValue = "true" ∨ lowerValue = "1" ∨ lowerValue = "yes" then .bool true
        else if lowerValue = "false" ∨ lowerValue = "0" ∨ lowerValue = "no" then .bool false
        else .str value
    | "object" | "array" =>
        match jsonParse value with
        | some j => j
        | none => .str value
    | "any" =>
        match jsonParse value with
        | some j => j
        | none =>
            match jsParseFloat value with
            | some n => .num n
            | none =>
                let lowerValue := jsTrim (jsToLower value)
                if lowerValue = "true" then .bool true
                else if lowerValue = "false" then .bool false
                else .str value
    | _ => .str value

theorem parseNumberSoftAux (value : String) (h : jsParseFloat value = none) :
    parseInputValue value "number" = .str value := by
  unfold parseInputValue
  by_cases h0 : value = "" ∨ jsTrim value = ""
  · rw [if_pos h0]
  · rw [if_neg h0]
    show (match jsParseFloat value with
      | some n => Json.num n
      | none => Json.str value) = Json.str value
    rw [h]

theorem parseStructSoftAux (value t : String) (ht : t = "object" ∨ t = "array")
    (h : jsonParse value = none) :
    parseInputValue value t = .str value := by
  rcases ht with ht | ht <;> subst ht <;>
    (unfold parseInputValue
     by_cases h0 : value = "" ∨ jsTrim value = ""
     · rw [if_pos h0]
     · rw [if_neg h0]
       show (match jsonParse value with
         | some j => j
         | none => Json.str value) = Json.str value
       rw [h])

theorem anyStructAux (value : String) (j : Json)
    (hv : value ≠ "") (ht : jsTrim value ≠ "")
    (h : jsonParse value = some j) :
    parseInputValue value "any" = j := by
  unfold parseInputValue
  rw [if_neg (by simp [hv, ht])]
  show (match jsonParse value with
    | some j => j
    | none =>
        match jsParseFloat value with
        | some n => Json.num n
        | none =>
            if jsTrim (jsToLower value) = "true" then Json.bool true
            else if jsTrim (jsToLower value) = "false" then Json.bool false
            else Json.str value) = j
  rw [h]

theorem anyNumAux (value : String) (n : JsNum)
    (hv : value ≠ "") (ht : jsTrim value ≠ "")
    (hjn : jsonParse value = none) (hf : jsParseFloat value = some n) :
    parseInputValue value "any" = .num n := by
  unfold parseInputValue
  rw [if_neg (by simp [hv, ht])]
  show (match jsonParse value with
    | some j => j
    | none =>
        match jsParseFloat value with
        | some n => Json.num n
        | none =>
            if jsTrim (jsToLower value) = "true" then Json.bool true
            else if jsTrim (jsToLower value) = "false" then Json.bool false
            else Json.str value) = Json.num n
  rw [hjn]
  show (match jsParseFloat value with
    | some n => Json.num n
    | none =>
        if jsTrim (jsToLower value) = "true" then Json.bool true
        else if jsTrim (jsToLower value) = "false" then Json.bool false
        else Json.str value) = Json.num n
  rw [hf]

theorem anyBoolAux (value : String) (b : Bool)
    (hv : value ≠ "") (ht : jsTrim value ≠ "")
    (hjn : jsonParse value = none) (hf : jsParseFloat value = none)
    (hb : jsTrim (jsToLower value) = (if b then "true" else "false")) :
    parseInputValue value "any" = .bool b := by
  unfold parseInputValue
  rw [if_neg (by simp [hv, ht])]
  show (match jsonParse value with
    | some j => j
    | none =>
        match jsParseFloat value with
        | some n => Json.num n
        | none =>
            if jsTrim (jsToLower value) = "true" then Json.bool true
            else if jsTrim (jsToLower value) = "false" then Json.bool false
            else Json.str value) = Json.bool b
  rw [hjn]
  show (match jsParseFloat value with
    | some n => Json.num n
    | none =>
        if jsTrim (jsToLower value) = "true" then Json.bool true
        else if jsTrim (jsToLower value) = "false" then Json.bool false
        else Json.str value) = Json.bool b
  rw [hf]
  cases b
  · have hb2 : jsTrim (jsToLower value) = "false" := by simpa using hb
    rw [if_neg (by rw [hb2]; decide), if_pos hb2]
  · have hb2 : jsTrim (jsToLower value) = "true" := by simpa using hb
    rw [if_pos hb2]

theorem anyFallbackAux (value : String)
    (hjn : jsonParse value = none) (hf : jsParseFloat value = none)
    (hT : jsTrim (jsToLower value) ≠ "true")
    (hF : jsTrim (jsToLower value) ≠ "false") :
    parseInputValue value "any" = .str value := by
  unfold parseInputValue
  by_cases h0 : value = "" ∨ jsTrim value = ""
  · rw [if_pos h0]
  · rw [if_neg h0]
    show (match jsonParse value with
      | some j => j
      | none =>
          match jsParseFloat value with
          | some n => Json.num n
          | none =>
              if jsTrim (jsToLower value) = "true" then Json.bool true
              else if jsTrim (jsToLower value) = "false" then Json.bool false
              else Json.str value) = Json.str value
    rw [hjn]
    show (match jsParseFloat value with
      | some n => Json.num n
      | none =>
          if jsTrim (jsToLower value) = "true" then Json.bool true
          else if jsTrim (jsToLower value) = "false" then Json.bool false
          else Json.str value) = Json.str value
    rw [hf]
    rw [if_neg hT, if_neg hF]

/-- C9: `ParseInput` is type-directed with soft failure:
`ParseInput("true","boolean") = true`; `ParseInput("nah","boolean")`
returns the literal string `"nah"`; for type `number`, a non-numeric input
returns the original text; for `object`/`array`, a malformed structured
literal returns the original text (no exception crosses the boundary);
for type `any`, the coercion chain tries a structured literal, then a
number, then a boolean, and finally falls back to the raw string — it
never fails. -/
theorem C9_parse_input_soft_failure :
    parseInputValue "true" "boolean" = .bool true ∧
    parseInputValue "nah" "boolean" = .str "nah" ∧
    (∀ value, jsParseFloat value = none →
      parseInputValue value "number" = .str value) ∧
    (∀ value t, (t = "object" ∨ t = "array") → jsonParse value = none →
      parseInputValue value t = .str value) ∧
    (∀ value j, value ≠ "" → jsTrim value ≠ "" → jsonParse value = some j →
      parseInputValue value "any" = j) ∧
    (∀ value n, value ≠ "" → jsTrim value ≠ "" → jsonParse value = none →
      jsParseFloat value = some n → parseInputValue value "any" = .num n) ∧
    (∀ value, jsonParse value = none → jsParseFloat value = none →
      jsTrim (jsToLower value) ≠ "true" → jsTrim (jsToLower value) ≠ "false" →
      parseInputValue value "any" = .str value) :=
  ⟨by decide, by decide, parseNumberSoftAux, parseStructSoftAux,
   anyStructAux, anyNumAux, anyFallbackAux⟩

/-- Witness for C9 at concrete inputs for every branch of the chain. -/
theorem C9_parse_input_soft_failure_witness :
    parseInputValue "nah" "number" = .str "nah" ∧
    parseInputValue "\x7bbad" "object" = .str "\x7bbad" ∧
    parseInputValue "[1, 2]" "any" = .arr [.num (.val 1), .num (.val 2)] ∧
    parseInputValue "12px" "any" = .num (.val 12) ∧
    parseInputValue "hello" "any" = .str "hello" := by
  refine ⟨?_, ?_, ?_, ?_, ?_⟩
  · exact C9_parse_input_soft_failure.2.2.1 "nah" (by decide)
  · exact C9_parse_input_soft_failure.2.2.2.1 "\x7bbad" "object" (Or.inl rfl) (by decide)
  · exact C9_parse_input_soft_failure.2.2.2.2.1 "[1, 2]"
      (.arr [.num (.val 1), .num (.val 2)]) (by decide) (by decide) (by decide)
  · exact C9_parse_input_soft_failure.2.2.2.2.2.1 "12px" (.val 12)
      (by decide) (by decide) (by decide) (by decide)
  · exact C9_parse_input_soft_failure.2.2.2.2.2.2 "hello"
      (by decide) (by decide) (by decide) (by decide)

/-- C10: the boolean step of the `any` fallback chain recognizes only the
literal strings `"true"` and `"false"` (case-insensitively, after the
structured-literal and numeric parses both fail), so `"yes"` and `"no"` —
accepted as booleans under declared type `boolean` — come back as raw
strings under declared type `any`. -/
theorem C10_any_chain_boolean_step :
    parseInputValue "yes" "boolean" = .bool true ∧
    parseInputValue "yes" "any" = .str "yes" ∧
    parseInputValue "no" "boolean" = .bool false ∧
    parseInputValue "no" "any" = .str "no" ∧
    (∀ value b, value ≠ "" → jsTrim value ≠ "" → jsonParse value = none →
      jsParseFloat value = none →
      jsTrim (jsToLower value) = (if b then "true" else "false") →
      parseInputValue value "any" = .bool b) ∧
    (∀ value, jsonParse value = none → jsParseFloat value = none →
      jsTrim (jsToLower value) ≠ "true" → jsTrim (jsToLower value) ≠ "false" →
      parseInputValue value "any" = .str value) :=
  ⟨by decide, by decide, by decide, by decide, anyBoolAux, anyFallbackAux⟩

/-- Witness for C10's general conjuncts at concrete inputs. -/
theorem C10_any_chain_boolean_step_witness :
    parseInputValue "TRUE" "any" = .bool true ∧
    parseInputValue "maybe" "any" = .str "maybe" := by
  refine ⟨?_, ?_⟩
  · exact C10_any_chain_boolean_step.2.2.2.2.1 "TRUE" true
      (by decide) (by decide) (by decide) (by decide) (by decide)
  · exact C10_any_chain_boolean_step.2.2.2.2.2 "maybe"
      (by decide) (by decide) (by decide) (by decide)

end GenAssist
